import Mathlib

/-!
Verification development for the arxiver post-processing pipeline.

The definitions below are a shallow embedding of the page-reconstruction
code (`postprocess.py`) and the completeness audit
(`utils/check_complete_results.py`): Python strings become `String`,
per-line processing becomes list processing over `splitlines`, dictionaries
keyed by article id become functions out of `String`, and code that can
raise becomes `Option`/`Except`.
-/

/-! ### String primitives (Python semantics, restricted to newline-separated text) -/

/-- Helper for `splitlines`: accumulate the current line (reversed) while
walking the character list.  A trailing newline does not produce a final
empty line, matching Python `str.splitlines`. -/
def splitlinesAux (acc : List Char) : List Char → List String
  | [] => [String.mk acc.reverse]
  | c :: rest =>
    if c = '\n' then
      match rest with
      | [] => [String.mk acc.reverse]
      | _ :: _ => String.mk acc.reverse :: splitlinesAux [] rest
    else splitlinesAux (c :: acc) rest

/-- Python `str.splitlines` for newline-separated text: `""` gives `[]`,
a trailing newline yields no trailing empty line. -/
def splitlines (s : String) : List String :=
  match s.data with
  | [] => []
  | c :: rest => splitlinesAux [] (c :: rest)

/-- Python `str.lower` (ASCII letters, as used by the heuristics). -/
def lowerStr (s : String) : String :=
  String.mk (s.data.map Char.toLower)

/-- Python `str.startswith`. -/
def startsWithB (pre s : String) : Bool :=
  pre.data.isPrefixOf s.data

/-- Python `str.endswith`. -/
def endsWithB (suf s : String) : Bool :=
  suf.data.isSuffixOf s.data

/-- Containment of `needle` as a contiguous run inside `hay`. -/
def listContains (needle : List Char) : List Char → Bool
  | [] => needle.isEmpty
  | c :: rest => needle.isPrefixOf (c :: rest) || listContains needle rest

/-- Python `needle in hay` on strings. -/
def containsSub (needle hay : String) : Bool :=
  listContains needle.data hay.data

/-- Python `"\n".join`. -/
def joinLines : List String → String
  | [] => ""
  | [l] => l
  | l :: ls => l ++ "\n" ++ joinLines ls

/-- Python `str.rsplit(sep, 1)` on character lists: split at the LAST
occurrence of `sep`; `none` when `sep` does not occur (in which case the
two-element unpacking in the source raises `ValueError`). -/
def rsplitOnce (sep : Char) : List Char → Option (List Char × List Char)
  | [] => none
  | c :: rest =>
    match rsplitOnce sep rest with
    | some (l, r) => some (c :: l, r)
    | none => if c = sep then some ([], rest) else none

/-- Whether an `Except` computation succeeded. -/
def isOkB {ε α : Type} : Except ε α → Bool
  | Except.ok _ => true
  | Except.error _ => false

/-- The last element of a list, with a default for the empty list.
Models repeated overwriting of a single dictionary slot during a scan. -/
def lastOr (d : Option String) : List String → Option String
  | [] => d
  | x :: l => lastOr (some x) l

/-- Python `max` over a list of integers (the source only calls it on
non-empty lists). -/
def pymax : List ℤ → ℤ
  | [] => 0
  | [x] => x
  | x :: y :: l => max x (pymax (y :: l))

/-! ### `postprocess.py`: pure per-page functions -/

/-- `parse_filename`: strip a `.mmd` suffix, then split on the last
underscore.  `none` models the uncaught `ValueError` raised by
`base_name.rsplit("_", 1)` when the name has no underscore. -/
def parse_filename (filename : String) : Option (String × String) :=
  let base :=
    if endsWithB ".mmd" filename then
      String.mk (filename.data.take (filename.data.length - 4))
    else filename
  match rsplitOnce '_' base.data with
  | some (l, r) => some (String.mk l, String.mk r)
  | none => none

/-- `detect_headers`: the `(index, line)` pairs of lines starting with `#`. -/
def detect_headers (mmd : String) : List (Nat × String) :=
  (splitlines mmd).enum.filter (fun p => startsWithB "#" p.2)

/-- `has_abstract`: some line contains the substring `abstract`
case-insensitively. -/
def has_abstract (mmd : String) : Bool :=
  (splitlines mmd).any (fun line => containsSub "abstract" (lowerStr line))

/-- A heading line (first character `#`) containing `abstract`
case-insensitively: the predicate used by `remove_authors`. -/
def isAbstractHeading (line : String) : Bool :=
  startsWithB "#" line && containsSub "abstract" (lowerStr line)

/-- A heading line (first character `#`) containing `references`
case-insensitively: the predicate used by `find_references` and
`remove_references`. -/
def isReferencesHeading (line : String) : Bool :=
  startsWithB "#" line && containsSub "references" (lowerStr line)

/-- `find_references`: some line is a references heading. -/
def find_references (mmd : String) : Bool :=
  (splitlines mmd).any isReferencesHeading

/-- The loop in `remove_authors`: index of the first abstract heading,
defaulting to `0` when none exists. -/
def abstract_line_index (lines : List String) : Nat :=
  match lines.findIdx? isAbstractHeading with
  | some i => i
  | none => 0

/-- `remove_authors`: keep line 0, a blank line, then everything from the
abstract heading onward.  `none` models the `IndexError` of `lines[0]` on
empty content. -/
def remove_authors (mmd : String) : Option String :=
  match splitlines mmd with
  | [] => none
  | l0 :: rest =>
    some (joinLines ([l0, ""] ++ (l0 :: rest).drop (abstract_line_index (l0 :: rest))))

/-- `remove_references`: all lines strictly before the first references
heading; the whole content when there is none. -/
def remove_references (mmd : String) : String :=
  match (splitlines mmd).findIdx? isReferencesHeading with
  | some i => joinLines ((splitlines mmd).take i)
  | none => mmd

/-! ### `ArticleProcessor`: the directory scan -/

/-- A page artifact: on-disk name and file content. -/
structure MmdFile where
  name : String
  content : String

/-- The processor's mutable dictionaries, as functions keyed by article id. -/
structure ProcState where
  headers_detected : String → Bool
  abstract_detected : String → Bool
  reference_pages : String → Option String
  article_pages : String → List String
  article_months : String → Option String

/-- The freshly-constructed `ArticleProcessor`. -/
def initState : ProcState where
  headers_detected := fun _ => false
  abstract_detected := fun _ => false
  reference_pages := fun _ => none
  article_pages := fun _ => []
  article_months := fun _ => none

/-- The state update performed by one loop iteration of
`process_month_directory` for a successfully parsed filename. -/
def applyFile (month pid pn content : String) (st : ProcState) : ProcState where
  headers_detected := fun i =>
    st.headers_detected i || (i == pid && pn == "1" && decide (1 < (detect_headers content).length))
  abstract_detected := fun i =>
    st.abstract_detected i || (i == pid && pn == "1" && has_abstract content)
  reference_pages := fun i =>
    if i == pid && find_references content then some pn else st.reference_pages i
  article_pages := fun i =>
    if i == pid then st.article_pages i ++ [pn] else st.article_pages i
  article_months := fun i =>
    if i == pid then some month else st.article_months i

/-- One iteration of the scan loop; the `ValueError` from `parse_filename`
is raised before the `try` block, so it propagates. -/
def processFile (month : String) (st : ProcState) (f : MmdFile) : Except String ProcState :=
  match parse_filename f.name with
  | none => Except.error f.name
  | some (pid, pn) => Except.ok (applyFile month pid pn f.content st)

/-- `process_month_directory`: fold the per-file step over a month's files
in directory scan order; an uncaught error aborts the scan. -/
def process_month_directory (month : String) (st : ProcState) :
    List MmdFile → Except String ProcState
  | [] => Except.ok st
  | f :: fs =>
    match processFile month st f with
    | Except.error e => Except.error e
    | Except.ok st1 => process_month_directory month st1 fs

/-- The loop over month directories in `main`. -/
def process_directories (st : ProcState) :
    List (String × List MmdFile) → Except String ProcState
  | [] => Except.ok st
  | d :: ds =>
    match process_month_directory d.1 st d.2 with
    | Except.error e => Except.error e
    | Except.ok st1 => process_directories st1 ds

/-- `get_valid_articles` membership: in both `headers_detected` and
`abstract_detected`. -/
def get_valid_articles (st : ProcState) (id : String) : Bool :=
  st.headers_detected id && st.abstract_detected id

/-- Every filename in the batch parses. -/
def all_parsed (files : List MmdFile) : Bool :=
  files.all (fun f => (parse_filename f.name).isSome)

/-- The contribution of one file to `headers_detected id`: it parses as
page `"1"` of `id` and its content has more than one heading. -/
def page1HeaderSignal (id : String) (f : MmdFile) : Bool :=
  match parse_filename f.name with
  | some (pid, pn) => id == pid && pn == "1" && decide (1 < (detect_headers f.content).length)
  | none => false

/-- The contribution of one file to `abstract_detected id`. -/
def page1AbstractSignal (id : String) (f : MmdFile) : Bool :=
  match parse_filename f.name with
  | some (pid, pn) => id == pid && pn == "1" && has_abstract f.content
  | none => false

/-- The page number a file writes into `reference_pages id`, if any. -/
def refMatch (id : String) (f : MmdFile) : Option String :=
  match parse_filename f.name with
  | some (pid, pn) => if id == pid && find_references f.content then some pn else none
  | none => none

/-- The page number a file appends to `article_pages id`, if any. -/
def pageMatch (id : String) (f : MmdFile) : Option String :=
  match parse_filename f.name with
  | some (pid, pn) => if id == pid then some pn else none
  | none => none

/-- Whether a file belongs to article `id`. -/
def idMatch (id : String) (f : MmdFile) : Bool :=
  match parse_filename f.name with
  | some (pid, _) => id == pid
  | none => false

/-! ### `postprocess_articles`: per-page reconstruction -/

/-- The per-page branch of `postprocess_articles`: author stripping on
page 1, references handling on the references page, unconditional drop
beyond it, verbatim otherwise.  `Except.error` models an uncaught
`IndexError`; `Except.ok none` means the page is skipped. -/
def processPage (ref_page page_num : ℤ) (content : String) :
    Except String (Option String) :=
  if page_num = 1 then
    match remove_authors content with
    | none => Except.error "IndexError"
    | some s => Except.ok (some s)
  else if page_num = ref_page then
    match splitlines content with
    | [] => Except.error "IndexError"
    | l0 :: _ =>
      if startsWithB "# reference" (lowerStr l0) then Except.ok none
      else Except.ok (some (remove_references content))
  else if page_num > ref_page then Except.ok none
  else Except.ok (some content)

/-- The page loop of `postprocess_articles` for one article: pages missing
from the store are silently skipped, surviving contents are collected in
order, an uncaught exception aborts. -/
def processPagesGo (ref_page : ℤ) (store : ℤ → Option String) :
    List ℤ → Except String (List String)
  | [] => Except.ok []
  | p :: ps =>
    match store p with
    | none => processPagesGo ref_page store ps
    | some c =>
      match processPage ref_page p c with
      | Except.error e => Except.error e
      | Except.ok none => processPagesGo ref_page store ps
      | Except.ok (some s) =>
        match processPagesGo ref_page store ps with
        | Except.error e => Except.error e
        | Except.ok rest => Except.ok (s :: rest)

/-! ### `utils/check_complete_results.py`: the completeness audit -/

/-- Classification of one source document by the audit. -/
inductive AuditStatus where
  | COMPLETE
  | INCOMPLETE
  | MISSING
deriving DecidableEq

/-- One audit report entry: the classification and the gap list printed
for it (empty when no gap message is printed). -/
structure AuditResult where
  status : AuditStatus
  missing_pages : List ℤ
deriving DecidableEq

/-- The per-document classification in `main` of
`check_complete_results.py`: `obs` is `mmd_files[paper_id]` (the empty
list meaning no index entry), `pdf_pages` the true page count. -/
def audit_one (pdf_pages : ℕ) (obs : List ℤ) : AuditResult :=
  if obs = [] then ⟨AuditStatus.MISSING, []⟩
  else if obs.length = pdf_pages ∧ Finset.Icc 1 (pymax obs) = obs.toFinset then
    ⟨AuditStatus.COMPLETE, []⟩
  else
    ⟨AuditStatus.INCOMPLETE,
      if Finset.Icc 1 (pymax obs) ≠ obs.toFinset then
        (Finset.Icc 1 (pymax obs) \ obs.toFinset).sort (fun a b => a ≤ b)
      else []⟩

/-! ### Concrete inputs used by counterexamples and witnesses -/

/-- Ascending scan order: pages 2 and 3 of article `p`, both carrying a
references heading. -/
def refScanFiles : List MmdFile :=
  [⟨"p_2.mmd", "# References\n[1] a"⟩, ⟨"p_3.mmd", "more\n# References\n[2] b"⟩]

/-- The same two files encountered in the opposite scan order. -/
def refScanFilesRev : List MmdFile :=
  [⟨"p_3.mmd", "more\n# References\n[2] b"⟩, ⟨"p_2.mmd", "# References\n[1] a"⟩]

/-- A first page whose text mentions `abstract` but has no heading line. -/
def noHeadingPage : String :=
  "The abstract is given below\nAuthor A\nAuthor B"

/-- A valid first page that is also its article's references page. -/
def refOnPageOne : String :=
  "# Title\nAuthor A\n# Abstract\nBody text\n# References\n[1] Item"

/-- A references page whose first line is prose, not a references heading. -/
def refPageWithProse : String :=
  "intro text\n# References\n[1] x"

/-- Two one-page months carrying the same article id `p`. -/
def twoMonthDirs : List (String × List MmdFile) :=
  [("2301", [⟨"p_1.mmd", "body one"⟩]), ("2302", [⟨"p_2.mmd", "body two"⟩])]

/-- A one-month scan establishing article `p` as valid with references on
its first page. -/
def pageOneRefFiles : List MmdFile :=
  [⟨"p_1.mmd", refOnPageOne⟩]

/-- A page store holding only page 1. -/
def pageOneStore : ℤ → Option String :=
  fun q => if q = 1 then some refOnPageOne else none

/-- A malformed filename followed by a well-formed one. -/
def badNameFiles : List MmdFile :=
  [⟨"badname.mmd", "x"⟩, ⟨"good_1.mmd", "# A\n# B\nabstract"⟩]

/-- A valid single-page article used by several witnesses. -/
def validPageOne : String :=
  "# Title\nAuthor A\n# Abstract\nBody text"

/-- A one-file scan of a valid article for the gate witness. -/
def validScanFiles : List MmdFile :=
  [⟨"p_1.mmd", validPageOne⟩]

/-- A well-formed file scanned before the malformed one. -/
def goodPre : List MmdFile :=
  [⟨"a_1.mmd", "ok"⟩]

/-- A well-formed file that would have been scanned after the malformed
one. -/
def goodPost : List MmdFile :=
  [⟨"b_1.mmd", "ok"⟩]

/-- A two-page store for the page-beyond-references witness. -/
def twoPageStore : ℤ → Option String :=
  fun q => if q = 1 then some validPageOne else if q = 2 then some "late page" else none

/-- A one-file scan whose references page is page 2. -/
def refPageTwoFiles : List MmdFile :=
  [⟨"p_2.mmd", refPageWithProse⟩]

/-! ### Helper lemmas about the scan -/

theorem lastOr_eq_getLast? (d : Option String) (l : List String) :
    lastOr d l = match l.getLast? with | some x => some x | none => d := by
  induction l generalizing d with
  | nil => simp [lastOr]
  | cons x xs ih =>
    cases xs with
    | nil => simp [lastOr]
    | cons y ys =>
      rw [lastOr, ih, List.getLast?_cons_cons]
      cases h : (y :: ys).getLast? with
      | some z => simp
      | none => simp at h

theorem lastOr_mem (d : Option String) (l : List String) (x : String)
    (h : lastOr d l = some x) : d = some x ∨ x ∈ l := by
  induction l generalizing d with
  | nil => exact Or.inl h
  | cons y ys ih =>
    rcases ih (some y) h with h1 | h2
    · rcases h1 with h1
      exact Or.inr (by simp at h1; simp [h1])
    · exact Or.inr (List.mem_cons_of_mem _ h2)

theorem pmd_headers (month : String) (files : List MmdFile) (st0 st : ProcState) (id : String)
    (h : process_month_directory month st0 files = Except.ok st) :
    st.headers_detected id = (st0.headers_detected id || files.any (page1HeaderSignal id)) := by
  induction files generalizing st0 with
  | nil =>
    simp only [process_month_directory, Except.ok.injEq] at h
    subst h
    simp
  | cons f fs ih =>
    rw [process_month_directory] at h
    cases hp : parse_filename f.name with
    | none => rw [processFile, hp] at h; exact absurd h (by simp)
    | some pr =>
      obtain ⟨pid, pn⟩ := pr
      rw [processFile, hp] at h
      simp only at h
      have := ih (applyFile month pid pn f.content st0) h
      rw [this]
      simp only [applyFile, List.any_cons, page1HeaderSignal, hp]
      rw [Bool.or_assoc]

theorem pmd_abstract (month : String) (files : List MmdFile) (st0 st : ProcState) (id : String)
    (h : process_month_directory month st0 files = Except.ok st) :
    st.abstract_detected id = (st0.abstract_detected id || files.any (page1AbstractSignal id)) := by
  induction files generalizing st0 with
  | nil =>
    simp only [process_month_directory, Except.ok.injEq] at h
    subst h
    simp
  | cons f fs ih =>
    rw [process_month_directory] at h
    cases hp : parse_filename f.name with
    | none => rw [processFile, hp] at h; exact absurd h (by simp)
    | some pr =>
      obtain ⟨pid, pn⟩ := pr
      rw [processFile, hp] at h
      simp only at h
      have := ih (applyFile month pid pn f.content st0) h
      rw [this]
      simp only [applyFile, List.any_cons, page1AbstractSignal, hp]
      rw [Bool.or_assoc]

theorem pmd_refs (month : String) (files : List MmdFile) (st0 st : ProcState) (id : String)
    (h : process_month_directory month st0 files = Except.ok st) :
    st.reference_pages id = lastOr (st0.reference_pages id) (files.filterMap (refMatch id)) := by
  induction files generalizing st0 with
  | nil =>
    simp only [process_month_directory, Except.ok.injEq] at h
    subst h
    simp [lastOr]
  | cons f fs ih =>
    rw [process_month_directory] at h
    cases hp : parse_filename f.name with
    | none => rw [processFile, hp] at h; exact absurd h (by simp)
    | some pr =>
      obtain ⟨pid, pn⟩ := pr
      rw [processFile, hp] at h
      simp only at h
      have := ih (applyFile month pid pn f.content st0) h
      rw [this]
      simp only [List.filterMap_cons, refMatch, hp, applyFile]
      by_cases hc : (id == pid && find_references f.content) = true
      · rw [if_pos hc, if_pos hc, lastOr]
      · rw [if_neg hc, if_neg hc]

theorem pmd_pages (month : String) (files : List MmdFile) (st0 st : ProcState) (id : String)
    (h : process_month_directory month st0 files = Except.ok st) :
    st.article_pages id = st0.article_pages id ++ files.filterMap (pageMatch id) := by
  induction files generalizing st0 with
  | nil =>
    simp only [process_month_directory, Except.ok.injEq] at h
    subst h
    simp
  | cons f fs ih =>
    rw [process_month_directory] at h
    cases hp : parse_filename f.name with
    | none => rw [processFile, hp] at h; exact absurd h (by simp)
    | some pr =>
      obtain ⟨pid, pn⟩ := pr
      rw [processFile, hp] at h
      simp only at h
      have := ih (applyFile month pid pn f.content st0) h
      rw [this]
      simp only [List.filterMap_cons, pageMatch, hp, applyFile]
      by_cases hc : (id == pid) = true
      · rw [if_pos hc, if_pos hc, List.append_assoc]
        rfl
      · rw [if_neg hc, if_neg hc]

theorem pmd_months (month : String) (files : List MmdFile) (st0 st : ProcState) (id : String)
    (h : process_month_directory month st0 files = Except.ok st) :
    st.article_months id =
      (if files.any (idMatch id) then some month else st0.article_months id) := by
  induction files generalizing st0 with
  | nil =>
    simp only [process_month_directory, Except.ok.injEq] at h
    subst h
    simp
  | cons f fs ih =>
    rw [process_month_directory] at h
    cases hp : parse_filename f.name with
    | none => rw [processFile, hp] at h; exact absurd h (by simp)
    | some pr =>
      obtain ⟨pid, pn⟩ := pr
      rw [processFile, hp] at h
      simp only at h
      have := ih (applyFile month pid pn f.content st0) h
      rw [this]
      simp only [List.any_cons, idMatch, hp, applyFile]
      by_cases hrest : fs.any (idMatch id) = true
      · simp [hrest]
      · simp only [Bool.not_eq_true] at hrest
        simp [hrest]

theorem pmd_ok (month : String) (files : List MmdFile) (st0 : ProcState)
    (hp : all_parsed files = true) :
    ∃ st, process_month_directory month st0 files = Except.ok st := by
  induction files generalizing st0 with
  | nil => exact ⟨st0, rfl⟩
  | cons f fs ih =>
    simp only [all_parsed, List.all_cons, Bool.and_eq_true] at hp
    obtain ⟨h1, h2⟩ := hp
    cases hq : parse_filename f.name with
    | none => rw [hq] at h1; simp [Option.isSome] at h1
    | some pr =>
      obtain ⟨pid, pn⟩ := pr
      obtain ⟨st, hst⟩ := ih (applyFile month pid pn f.content st0) h2
      refine ⟨st, ?_⟩
      rw [process_month_directory, processFile, hq]
      exact hst

theorem pd_pages (dirs : List (String × List MmdFile)) (st0 st : ProcState) (id : String)
    (h : process_directories st0 dirs = Except.ok st) :
    st.article_pages id =
      st0.article_pages id ++ dirs.flatMap (fun d => d.2.filterMap (pageMatch id)) := by
  induction dirs generalizing st0 with
  | nil =>
    simp only [process_directories, Except.ok.injEq] at h
    subst h
    simp
  | cons d ds ih =>
    rw [process_directories] at h
    cases hm : process_month_directory d.1 st0 d.2 with
    | error e => rw [hm] at h; exact absurd h (by simp)
    | ok st1 =>
      rw [hm] at h
      simp only at h
      have := ih st1 h
      rw [this, pmd_pages d.1 d.2 st0 st1 id hm]
      simp [List.append_assoc]

theorem pd_months (dirs : List (String × List MmdFile)) (st0 st : ProcState) (id : String)
    (h : process_directories st0 dirs = Except.ok st) :
    st.article_months id =
      lastOr (st0.article_months id)
        (dirs.filterMap (fun d => if d.2.any (idMatch id) then some d.1 else none)) := by
  induction dirs generalizing st0 with
  | nil =>
    simp only [process_directories, Except.ok.injEq] at h
    subst h
    simp [lastOr]
  | cons d ds ih =>
    rw [process_directories] at h
    cases hm : process_month_directory d.1 st0 d.2 with
    | error e => rw [hm] at h; exact absurd h (by simp)
    | ok st1 =>
      rw [hm] at h
      simp only at h
      have := ih st1 h
      rw [this, pmd_months d.1 d.2 st0 st1 id hm]
      simp only [List.filterMap_cons]
      by_cases hc : d.2.any (idMatch id) = true
      · rw [if_pos hc, if_pos hc, lastOr]
      · rw [if_neg hc, if_neg hc]

theorem pd_ok (dirs : List (String × List MmdFile)) (st0 : ProcState)
    (hp : dirs.all (fun d => all_parsed d.2) = true) :
    ∃ st, process_directories st0 dirs = Except.ok st := by
  induction dirs generalizing st0 with
  | nil => exact ⟨st0, rfl⟩
  | cons d ds ih =>
    simp only [List.all_cons, Bool.and_eq_true] at hp
    obtain ⟨h1, h2⟩ := hp
    obtain ⟨st1, hst1⟩ := pmd_ok d.1 d.2 st0 h1
    obtain ⟨st, hst⟩ := ih st1 h2
    refine ⟨st, ?_⟩
    rw [process_directories, hst1]
    exact hst

/-! ### Helper lemmas about reconstruction safety -/

theorem find_references_nonempty (c : String) (h : find_references c = true) :
    splitlines c ≠ [] := by
  intro hc
  rw [find_references, hc] at h
  simp at h

theorem remove_authors_isSome (c : String) (h : splitlines c ≠ []) :
    ∃ s, remove_authors c = some s := by
  rw [remove_authors]
  cases hc : splitlines c with
  | nil => exact absurd hc h
  | cons l0 rest => exact ⟨_, rfl⟩

theorem processPage_ok (r p : ℤ) (c : String) (h : find_references c = true) :
    isOkB (processPage r p c) = true := by
  have hne : splitlines c ≠ [] := find_references_nonempty c h
  rw [processPage]
  by_cases h1 : p = 1
  · rw [if_pos h1]
    obtain ⟨s, hs⟩ := remove_authors_isSome c hne
    rw [hs]
    rfl
  · rw [if_neg h1]
    by_cases h2 : p = r
    · rw [if_pos h2]
      cases hc : splitlines c with
      | nil => exact absurd hc hne
      | cons l0 rest =>
        cases h3 : startsWithB "# reference" (lowerStr l0) <;> simp [h3, isOkB]
    · rw [if_neg h2]
      by_cases h4 : p > r
      · rw [if_pos h4]; rfl
      · rw [if_neg h4]; rfl

/-! ### Helper lemmas about the audit -/

theorem pymax_mem (l : List ℤ) (h : l ≠ []) : pymax l ∈ l := by
  induction l with
  | nil => exact absurd rfl h
  | cons x xs ih =>
    cases xs with
    | nil => simp [pymax]
    | cons y ys =>
      rw [pymax]
      rcases max_cases x (pymax (y :: ys)) with ⟨h1, _⟩ | ⟨h1, _⟩
      · rw [h1]; exact List.mem_cons_self _ _
      · rw [h1]; exact List.mem_cons_of_mem _ (ih (by simp))

theorem le_pymax (l : List ℤ) (x : ℤ) (h : x ∈ l) : x ≤ pymax l := by
  induction l with
  | nil => simp at h
  | cons a as ih =>
    cases as with
    | nil =>
      simp only [List.mem_singleton] at h
      simp [pymax, h]
    | cons y ys =>
      rw [pymax]
      rcases List.mem_cons.mp h with h1 | h2
      · exact le_max_of_le_left (le_of_eq h1)
      · exact le_max_of_le_right (ih h2)

theorem audit_complete_cond (t : ℕ) (obs : List ℤ) (hnd : obs.Nodup) (hne : obs ≠ []) :
    (obs.length = t ∧ Finset.Icc (1:ℤ) (pymax obs) = obs.toFinset) ↔
    (obs.length = t ∧ obs.toFinset = Finset.Icc (1:ℤ) (t:ℤ)) := by
  constructor
  · rintro ⟨hlen, hset⟩
    refine ⟨hlen, ?_⟩
    have hmem : pymax obs ∈ obs.toFinset := List.mem_toFinset.mpr (pymax_mem obs hne)
    rw [← hset] at hmem
    have h1 : (1:ℤ) ≤ pymax obs := (Finset.mem_Icc.mp hmem).1
    have hcard : obs.toFinset.card = obs.length := List.toFinset_card_of_nodup hnd
    have hcard2 : (Finset.Icc (1:ℤ) (pymax obs)).card = (pymax obs).toNat := by
      rw [Int.card_Icc]
      congr 1
      ring
    have htn : (pymax obs).toNat = t := by rw [← hcard2, hset, hcard, hlen]
    have hpm : pymax obs = (t:ℤ) := by omega
    rw [← hset, hpm]
  · rintro ⟨hlen, hset⟩
    refine ⟨hlen, ?_⟩
    have hlp : 0 < obs.length := List.length_pos.mpr hne
    have ht : 1 ≤ (t:ℤ) := by
      have : 1 ≤ t := by omega
      exact_mod_cast this
    have htmem : (t:ℤ) ∈ obs := by
      have hmem : (t:ℤ) ∈ Finset.Icc (1:ℤ) (t:ℤ) := Finset.mem_Icc.mpr ⟨ht, le_refl _⟩
      rw [← hset] at hmem
      exact List.mem_toFinset.mp hmem
    have hub : ∀ x ∈ obs, x ≤ (t:ℤ) := by
      intro x hx
      have hmem : x ∈ Finset.Icc (1:ℤ) (t:ℤ) := hset ▸ List.mem_toFinset.mpr hx
      exact (Finset.mem_Icc.mp hmem).2
    have hpm : pymax obs = (t:ℤ) :=
      le_antisymm (hub _ (pymax_mem obs hne)) (le_pymax obs _ htmem)
    rw [hpm, hset]

/-! ### Claim C7 -/

/-- C7: with a known positive true page count and no duplicate observed
page numbers, the audit classifies a document MISSING iff no page was
indexed, COMPLETE iff the observed count equals the true count and the
observed set is exactly the range from 1 to the true count (the code's
check against the range up to the observed maximum being equivalent), and
INCOMPLETE in every other case with an indexed entry. -/
theorem C7_audit_classification (t : ℕ) (obs : List ℤ) (hnd : obs.Nodup) (hpos : 0 < t) :
    ((audit_one t obs).status = AuditStatus.MISSING ↔ obs = []) ∧
    ((audit_one t obs).status = AuditStatus.COMPLETE ↔
      (obs.length = t ∧ obs.toFinset = Finset.Icc (1:ℤ) (t:ℤ))) ∧
    ((audit_one t obs).status = AuditStatus.INCOMPLETE ↔
      (obs ≠ [] ∧ ¬(obs.length = t ∧ obs.toFinset = Finset.Icc (1:ℤ) (t:ℤ)))) := by
  by_cases hne : obs = []
  · subst hne
    have hred : audit_one t [] = ⟨AuditStatus.MISSING, []⟩ := rfl
    rw [hred]
    refine ⟨by simp, ?_, ?_⟩
    · constructor
      · intro hcon; exact absurd hcon (by decide)
      · rintro ⟨hlen, _⟩
        simp only [List.length_nil] at hlen
        omega
    · constructor
      · intro hcon; exact absurd hcon (by decide)
      · rintro ⟨hne2, _⟩; exact absurd rfl hne2
  · rw [audit_one, if_neg hne]
    by_cases hcc : obs.length = t ∧ Finset.Icc (1:ℤ) (pymax obs) = obs.toFinset
    · rw [if_pos hcc]
      have hcc2 := (audit_complete_cond t obs hnd hne).mp hcc
      exact ⟨iff_of_false (by simp) (fun hc => hne hc),
             iff_of_true rfl hcc2,
             iff_of_false (by simp) (fun hc => hc.2 hcc2)⟩
    · rw [if_neg hcc]
      have hcc2 : ¬(obs.length = t ∧ obs.toFinset = Finset.Icc (1:ℤ) (t:ℤ)) :=
        fun hc => hcc ((audit_complete_cond t obs hnd hne).mpr hc)
      exact ⟨iff_of_false (by simp) (fun hc => hne hc),
             iff_of_false (by simp) (fun hc => absurd hc hcc2),
             iff_of_true rfl ⟨hne, hcc2⟩⟩

/-- C7 witness: the classification theorem instantiated at true count 2
with observed pages 1 and 2. -/
theorem C7_audit_classification_witness :
    ([1, 2] : List ℤ).Nodup ∧ 0 < 2 ∧
    (((audit_one 2 [1, 2]).status = AuditStatus.MISSING ↔ ([1, 2] : List ℤ) = []) ∧
     ((audit_one 2 [1, 2]).status = AuditStatus.COMPLETE ↔
       (([1, 2] : List ℤ).length = 2 ∧ ([1, 2] : List ℤ).toFinset = Finset.Icc (1:ℤ) ((2:ℕ):ℤ))) ∧
     ((audit_one 2 [1, 2]).status = AuditStatus.INCOMPLETE ↔
       (([1, 2] : List ℤ) ≠ [] ∧
        ¬(([1, 2] : List ℤ).length = 2 ∧ ([1, 2] : List ℤ).toFinset = Finset.Icc (1:ℤ) ((2:ℕ):ℤ))))) :=
  ⟨by decide, by decide, C7_audit_classification 2 [1, 2] (by decide) (by decide)⟩

/-! ### Claim C3 -/

/-- C3 counterexample: true page count 5 with observed pages 1, 2, 3.  The
claim requires pages 4 and 5 (absent from the expected set derived from
the true count) to be reported, but the code compares against the range up
to the observed maximum and reports no gap at all. -/
theorem C3_missing_pages_counterexample :
    audit_one 5 [1, 2, 3] = ⟨AuditStatus.INCOMPLETE, []⟩ ∧
    (4:ℤ) ∈ Finset.Icc (1:ℤ) 5 \ ([1, 2, 3] : List ℤ).toFinset ∧
    (5:ℤ) ∈ Finset.Icc (1:ℤ) 5 \ ([1, 2, 3] : List ℤ).toFinset ∧
    (4:ℤ) ∉ (audit_one 5 [1, 2, 3]).missing_pages ∧
    (5:ℤ) ∉ (audit_one 5 [1, 2, 3]).missing_pages :=
  ⟨by decide, by decide, by decide, by decide, by decide⟩

/-- C3 as amended: for a non-COMPLETE document with indexed pages, the
reported gap list is the sorted list of pages in the range from 1 to the
OBSERVED maximum that are absent from the observed pages, emitted only
when that range differs from the observed set; pages above the observed
maximum (up to the true count) are never reported. -/
theorem C3_missing_pages_theorem (t : ℕ) (obs : List ℤ) (p : ℤ) (h1 : obs ≠ [])
    (h2 : (audit_one t obs).status ≠ AuditStatus.COMPLETE) :
    List.Sorted (fun a b => a ≤ b) (audit_one t obs).missing_pages ∧
    (p ∈ (audit_one t obs).missing_pages ↔
      (Finset.Icc (1:ℤ) (pymax obs) ≠ obs.toFinset ∧ 1 ≤ p ∧ p ≤ pymax obs ∧ p ∉ obs)) := by
  have hcc : ¬(obs.length = t ∧ Finset.Icc (1:ℤ) (pymax obs) = obs.toFinset) := by
    intro hc
    apply h2
    rw [audit_one, if_neg h1, if_pos hc]
  have hms : (audit_one t obs).missing_pages =
      (if Finset.Icc (1:ℤ) (pymax obs) ≠ obs.toFinset then
        (Finset.Icc (1:ℤ) (pymax obs) \ obs.toFinset).sort (fun a b => a ≤ b)
      else []) := by
    rw [audit_one, if_neg h1, if_neg hcc]
  rw [hms]
  by_cases heq : Finset.Icc (1:ℤ) (pymax obs) ≠ obs.toFinset
  · rw [if_pos heq]
    refine ⟨Finset.sort_sorted _ _, ?_⟩
    rw [Finset.mem_sort, Finset.mem_sdiff, Finset.mem_Icc, List.mem_toFinset]
    constructor
    · rintro ⟨⟨ha, hb⟩, hc⟩
      exact ⟨heq, ha, hb, hc⟩
    · rintro ⟨_, ha, hb, hc⟩
      exact ⟨⟨ha, hb⟩, hc⟩
  · rw [if_neg heq]
    rw [not_not] at heq
    refine ⟨List.sorted_nil, ?_⟩
    constructor
    · intro hmem
      simp at hmem
    · rintro ⟨hbad, _⟩
      exact absurd heq hbad

/-- C3 witness: amended gap theorem instantiated at true count 5, observed
pages 1 and 3, query page 2. -/
theorem C3_missing_pages_witness :
    ([1, 3] : List ℤ) ≠ [] ∧ (audit_one 5 [1, 3]).status ≠ AuditStatus.COMPLETE ∧
    (List.Sorted (fun a b => a ≤ b) (audit_one 5 [1, 3]).missing_pages ∧
     ((2:ℤ) ∈ (audit_one 5 [1, 3]).missing_pages ↔
       (Finset.Icc (1:ℤ) (pymax [1, 3]) ≠ ([1, 3] : List ℤ).toFinset ∧
        1 ≤ (2:ℤ) ∧ (2:ℤ) ≤ pymax [1, 3] ∧ (2:ℤ) ∉ ([1, 3] : List ℤ)))) :=
  ⟨by decide, by decide, C3_missing_pages_theorem 5 [1, 3] 2 (by decide) (by decide)⟩

/-! ### Claim C5 -/

/-- C5: after a scan in which every filename parses, an article is in
`get_valid_articles` exactly when some file parsed as its page "1" has
more than one heading line AND some file parsed as its page "1" contains
the substring "abstract" — the conjunction of the two independent
first-page signals. -/
theorem C5_validity_gate (month : String) (files : List MmdFile) (id : String)
    (hp : all_parsed files = true) :
    (process_month_directory month initState files).map (fun st => get_valid_articles st id)
      = Except.ok (files.any (page1HeaderSignal id) && files.any (page1AbstractSignal id)) := by
  obtain ⟨st, hst⟩ := pmd_ok month files initState hp
  rw [hst]
  simp only [Except.map, Except.ok.injEq]
  rw [get_valid_articles, pmd_headers month files initState st id hst,
      pmd_abstract month files initState st id hst]
  simp [initState]

/-- C5 witness: the gate theorem instantiated at a one-file scan whose
page 1 has two headings and an abstract line. -/
theorem C5_validity_gate_witness :
    all_parsed validScanFiles = true ∧
    (process_month_directory "2301" initState validScanFiles).map
        (fun st => get_valid_articles st "p")
      = Except.ok (validScanFiles.any (page1HeaderSignal "p") &&
          validScanFiles.any (page1AbstractSignal "p")) :=
  ⟨by decide, C5_validity_gate "2301" validScanFiles "p" (by decide)⟩

/-! ### Claim C1 -/

/-- C1 counterexample: article `p` has references headings on pages 2 and
3.  Scanning in ascending order records page "3"; scanning the same two
files in the opposite order records page "2".  The recorded value is the
last match in scan order, not the earliest page number, and it depends on
the directory scan order. -/
theorem C1_refpage_counterexample :
    (process_month_directory "2301" initState refScanFiles).map
        (fun st => st.reference_pages "p") = Except.ok (some "3") ∧
    (process_month_directory "2301" initState refScanFilesRev).map
        (fun st => st.reference_pages "p") = Except.ok (some "2") ∧
    some ("3" : String) ≠ some "2" :=
  ⟨by rfl, by rfl, by decide⟩

/-- C1 as amended: the recorded references page of an article is the page
number parsed from the LAST file in directory scan order whose content
contains a references heading (each later match overwrites the earlier
one), so the result depends on scan order rather than being the minimum
page number. -/
theorem C1_refpage_theorem (month : String) (files : List MmdFile) (id : String)
    (hp : all_parsed files = true) :
    (process_month_directory month initState files).map (fun st => st.reference_pages id)
      = Except.ok ((files.filterMap (refMatch id)).getLast?) := by
  obtain ⟨st, hst⟩ := pmd_ok month files initState hp
  rw [hst]
  simp only [Except.map, Except.ok.injEq]
  rw [pmd_refs month files initState st id hst]
  have hinit : initState.reference_pages id = none := rfl
  rw [hinit, lastOr_eq_getLast?]
  cases hl : (files.filterMap (refMatch id)).getLast? with
  | some x => rfl
  | none => rfl

/-- C1 witness: the amended theorem instantiated at the ascending-order
two-file scan. -/
theorem C1_refpage_witness :
    all_parsed refScanFiles = true ∧
    (process_month_directory "2301" initState refScanFiles).map
        (fun st => st.reference_pages "p")
      = Except.ok ((refScanFiles.filterMap (refMatch "p")).getLast?) :=
  ⟨by decide, C1_refpage_theorem "2301" refScanFiles "p" (by decide)⟩

/-! ### Claim C4 -/

/-- C4 counterexample: a filename with no underscore makes the whole
month scan return an error (the uncaught `ValueError`), and the
well-formed file behind it is never indexed — the scan does not skip and
continue. -/
theorem C4_malformed_name_counterexample :
    process_month_directory "2301" initState badNameFiles = Except.error "badname.mmd" ∧
    isOkB (process_month_directory "2301" initState badNameFiles) = false :=
  ⟨by rfl, by rfl⟩

/-- C4 as amended: `parse_filename` is called before the `try` block, so
the first filename that does not split on an underscore raises an
unhandled `ValueError` that aborts the directory scan; only the files
scanned before it were processed. -/
theorem C4_malformed_name_theorem (month : String) (pre post : List MmdFile)
    (name c : String) (h2 : parse_filename name = none) (st : ProcState)
    (h1 : all_parsed pre = true) :
    process_month_directory month st (pre ++ ⟨name, c⟩ :: post) = Except.error name := by
  induction pre generalizing st with
  | nil =>
    rw [List.nil_append, process_month_directory, processFile, h2]
  | cons f fs ih =>
    simp only [all_parsed, List.all_cons, Bool.and_eq_true] at h1
    obtain ⟨ha, hb⟩ := h1
    cases hq : parse_filename f.name with
    | none => rw [hq] at ha; simp at ha
    | some pr =>
      obtain ⟨pid, pn⟩ := pr
      rw [List.cons_append, process_month_directory, processFile, hq]
      exact ih (applyFile month pid pn f.content st) hb

/-- C4 witness: the abort theorem instantiated with one good file before
and one after the malformed name. -/
theorem C4_malformed_name_witness :
    parse_filename "badname.mmd" = none ∧ all_parsed goodPre = true ∧
    process_month_directory "2301" initState (goodPre ++ ⟨"badname.mmd", "x"⟩ :: goodPost)
      = Except.error "badname.mmd" :=
  ⟨by decide, by decide,
    C4_malformed_name_theorem "2301" goodPre goodPost "badname.mmd" "x" (by decide)
      initState (by decide)⟩

/-! ### Claim C2 -/

/-- C2 counterexample: a first page containing "abstract" in a non-heading
line.  The claim says only line 0 and a blank line survive; the code's
fallback index 0 keeps line 0, a blank line, and then the WHOLE page again
starting from line 0 — nothing is dropped. -/
theorem C2_author_strip_counterexample :
    has_abstract noHeadingPage = true ∧
    (splitlines noHeadingPage).findIdx? isAbstractHeading = none ∧
    remove_authors noHeadingPage =
      some "The abstract is given below\n\nThe abstract is given below\nAuthor A\nAuthor B" ∧
    some "The abstract is given below\n\nThe abstract is given below\nAuthor A\nAuthor B" ≠
      some (joinLines ["The abstract is given below", ""]) :=
  ⟨by decide, by decide, by decide, by decide⟩

/-- C2 as amended: on a first page with an abstract substring but no
abstract heading line, `remove_authors` emits line 0, a blank line, and
then ALL lines of the page starting again from line 0 (line 0 appears
twice); no author-block content is dropped. -/
theorem C2_author_strip_theorem (mmd l0 : String) (ls : List String)
    (h1 : splitlines mmd = l0 :: ls)
    (h2 : (splitlines mmd).findIdx? isAbstractHeading = none)
    (h3 : has_abstract mmd = true) :
    remove_authors mmd = some (joinLines (l0 :: "" :: l0 :: ls)) := by
  have h2' : (l0 :: ls).findIdx? isAbstractHeading = none := by rw [← h1]; exact h2
  have hidx : abstract_line_index (l0 :: ls) = 0 := by rw [abstract_line_index, h2']
  unfold remove_authors
  rw [h1]
  show some (joinLines ([l0, ""] ++ (l0 :: ls).drop (abstract_line_index (l0 :: ls)))) =
    some (joinLines (l0 :: "" :: l0 :: ls))
  rw [hidx, List.drop_zero]
  rfl

/-- C2 witness: the fallback theorem instantiated at the no-heading page. -/
theorem C2_author_strip_witness :
    splitlines noHeadingPage = "The abstract is given below" :: ["Author A", "Author B"] ∧
    (splitlines noHeadingPage).findIdx? isAbstractHeading = none ∧
    has_abstract noHeadingPage = true ∧
    remove_authors noHeadingPage =
      some (joinLines ("The abstract is given below" :: "" ::
        "The abstract is given below" :: ["Author A", "Author B"])) :=
  ⟨by decide, by decide, by decide,
    C2_author_strip_theorem noHeadingPage "The abstract is given below"
      ["Author A", "Author B"] (by decide) (by decide) (by decide)⟩

/-! ### Claim C6 -/

/-- C6 counterexample: a valid article whose references heading sits on
page 1.  The scan records references page 1, but reconstruction takes the
page-1 author-stripping branch, so the references heading and the items
after it survive in the output, instead of being removed as the claim
requires. -/
theorem C6_refpage_counterexample :
    (process_month_directory "2301" initState pageOneRefFiles).map
        (fun st => (get_valid_articles st "p", st.reference_pages "p"))
      = Except.ok (true, some "1") ∧
    processPagesGo 1 pageOneStore [1] =
      Except.ok ["# Title\n\n# Abstract\nBody text\n# References\n[1] Item"] ∧
    "# Title\n\n# Abstract\nBody text\n# References\n[1] Item" ≠ remove_references refOnPageOne ∧
    startsWithB "# reference" (lowerStr ((splitlines refOnPageOne).headD "")) = false :=
  ⟨by rfl, by rfl, by decide, by decide⟩

/-- C6 as amended: the claimed references-page rule holds only when the
references page is not page 1: then the page is dropped entirely iff its
first line, lower-cased, starts with "# reference", and otherwise included
with everything from the references heading onward removed.  When the
references page IS page 1, the author-stripping branch applies instead. -/
theorem C6_refpage_theorem (r : ℤ) (c : String) (h : find_references c = true) :
    (r ≠ 1 → processPage r r c =
      Except.ok (if startsWithB "# reference" (lowerStr ((splitlines c).headD "")) then none
                 else some (remove_references c))) ∧
    processPage 1 1 c = Except.ok (remove_authors c) := by
  have hne := find_references_nonempty c h
  constructor
  · intro hr
    rw [processPage, if_neg hr, if_pos rfl]
    cases hc : splitlines c with
    | nil => exact absurd hc hne
    | cons l0 rest =>
      simp only [List.headD_cons]
      by_cases h3 : startsWithB "# reference" (lowerStr l0) = true
      · simp [h3]
      · simp [h3]
  · rw [processPage, if_pos rfl]
    obtain ⟨s, hs⟩ := remove_authors_isSome c hne
    rw [hs]

/-- C6 witness: the references-page theorem instantiated at a references
page numbered 2 whose first line is prose. -/
theorem C6_refpage_witness :
    find_references refPageWithProse = true ∧
    ((2:ℤ) ≠ 1 → processPage 2 2 refPageWithProse =
      Except.ok (if startsWithB "# reference" (lowerStr ((splitlines refPageWithProse).headD ""))
                 then none else some (remove_references refPageWithProse))) ∧
    processPage 1 1 refPageWithProse = Except.ok (remove_authors refPageWithProse) :=
  ⟨by decide, (C6_refpage_theorem 2 refPageWithProse (by decide)).1,
    (C6_refpage_theorem 2 refPageWithProse (by decide)).2⟩

/-! ### Claim C8 -/

/-- C8: when the references page number is at least 1, reconstruction
produces exactly the same surviving contents as if every page numbered
strictly beyond the references page had been removed from the page list:
no text from such pages reaches the output. -/
theorem C8_beyond_refs_dropped (r : ℤ) (store : ℤ → Option String) (pages : List ℤ)
    (hr : 1 ≤ r) :
    processPagesGo r store pages
      = processPagesGo r store (pages.filter (fun p => decide (p ≤ r))) := by
  induction pages with
  | nil => rfl
  | cons p ps ih =>
    by_cases hp : p ≤ r
    · have hd : decide (p ≤ r) = true := by simpa using hp
      rw [List.filter_cons, if_pos hd]
      simp only [processPagesGo]
      rw [ih]
    · have hp1 : p ≠ 1 := by omega
      have hpr : p ≠ r := by omega
      have hgt : p > r := by omega
      have hd : decide (p ≤ r) = false := by simpa using hp
      rw [List.filter_cons, if_neg (by simp [hd])]
      simp only [processPagesGo]
      cases hs : store p with
      | none => exact ih
      | some c =>
        have hpage : processPage r p c = Except.ok none := by
          rw [processPage, if_neg hp1, if_neg hpr, if_pos hgt]
        simp only [hpage]
        exact ih

/-- C8 witness: the exclusion theorem instantiated at references page 1
with physical pages 1 and 2. -/
theorem C8_beyond_refs_dropped_witness :
    (1:ℤ) ≤ 1 ∧
    processPagesGo 1 twoPageStore [1, 2]
      = processPagesGo 1 twoPageStore ([1, 2].filter (fun p => decide (p ≤ (1:ℤ)))) :=
  ⟨by decide, C8_beyond_refs_dropped 1 twoPageStore [1, 2] (by decide)⟩

/-! ### Claim C9 -/

/-- C9 counterexample: article id `p` appears in the two period
directories 2301 and 2302 with one page each.  The scan keeps a single
entry merging both pages, and records only the later period — the two
occurrences are not treated as separate documents with their own page
sets and periods. -/
theorem C9_period_counterexample :
    (process_directories initState twoMonthDirs).map
        (fun st => (st.article_pages "p", st.article_months "p"))
      = Except.ok (["1", "2"], some "2302") ∧
    (["1", "2"] : List String) ≠ ["1"] ∧ (["1", "2"] : List String) ≠ ["2"] ∧
    some ("2302" : String) ≠ some "2301" :=
  ⟨by rfl, by decide, by decide, by decide⟩

/-- C9 as amended: the index is keyed by document id alone.  After a scan
of several period directories, an article's page list is the concatenation
of the matching pages of ALL directories in scan order, and its recorded
period is the LAST directory containing a file of that article. -/
theorem C9_period_theorem (dirs : List (String × List MmdFile)) (id : String)
    (hp : dirs.all (fun d => all_parsed d.2) = true) :
    (process_directories initState dirs).map
        (fun st => (st.article_pages id, st.article_months id))
      = Except.ok (dirs.flatMap (fun d => d.2.filterMap (pageMatch id)),
          lastOr none (dirs.filterMap
            (fun d => if d.2.any (idMatch id) then some d.1 else none))) := by
  obtain ⟨st, hst⟩ := pd_ok dirs initState hp
  rw [hst]
  simp only [Except.map, Except.ok.injEq]
  rw [pd_pages dirs initState st id hst, pd_months dirs initState st id hst]
  simp [initState]

/-- C9 witness: the merge theorem instantiated at the two-directory scan. -/
theorem C9_period_witness :
    twoMonthDirs.all (fun d => all_parsed d.2) = true ∧
    (process_directories initState twoMonthDirs).map
        (fun st => (st.article_pages "p", st.article_months "p"))
      = Except.ok (twoMonthDirs.flatMap (fun d => d.2.filterMap (pageMatch "p")),
          lastOr none (twoMonthDirs.filterMap
            (fun d => if d.2.any (idMatch "p") then some d.1 else none))) :=
  ⟨by decide, C9_period_theorem twoMonthDirs "p" (by decide)⟩

/-! ### Claim C10 -/

/-- C10: whenever the scan records `pn` as the references page of article
`id`, some scanned file parses as page `pn` of `id`, its content passes
`find_references` (so it has at least one line, and re-reading the same
immutable file at reconstruction time yields non-empty `splitlines`), and
the per-page reconstruction step on that content never raises — reading
the first line of the references page cannot fail. -/
theorem C10_refpage_safety (month : String) (files : List MmdFile) (id pn : String) (r p : ℤ)
    (h : (process_month_directory month initState files).map (fun st => st.reference_pages id)
          = Except.ok (some pn)) :
    files.any (fun f => parse_filename f.name == some (id, pn) && find_references f.content
      && !(splitlines f.content).isEmpty && isOkB (processPage r p f.content)) = true := by
  cases hres : process_month_directory month initState files with
  | error e =>
    rw [hres] at h
    exact absurd h (by simp [Except.map])
  | ok st =>
    rw [hres] at h
    simp only [Except.map, Except.ok.injEq] at h
    have href := pmd_refs month files initState st id hres
    have hinit : initState.reference_pages id = none := rfl
    rw [hinit] at href
    have hlast : lastOr none (files.filterMap (refMatch id)) = some pn := by
      rw [← href]
      exact h
    rcases lastOr_mem none (files.filterMap (refMatch id)) pn hlast with hc | hmem
    · exact absurd hc (by simp)
    · obtain ⟨f, hf, hmatch⟩ := List.mem_filterMap.mp hmem
      cases hq : parse_filename f.name with
      | none => rw [refMatch, hq] at hmatch; exact absurd hmatch (by simp)
      | some pr =>
        obtain ⟨pid, pn'⟩ := pr
        rw [refMatch, hq] at hmatch
        by_cases hcond : (id == pid && find_references f.content) = true
        · simp only [hcond, if_true, Option.some.injEq] at hmatch
          have hpn : pn' = pn := hmatch
          rw [Bool.and_eq_true] at hcond
          have hid : pid = id := by
            have := hcond.1
            simp only [beq_iff_eq] at this
            exact this.symm
          have hfr : find_references f.content = true := hcond.2
          have hnempty : (splitlines f.content).isEmpty = false := by
            cases hsp : splitlines f.content with
            | nil => exact absurd hsp (find_references_nonempty f.content hfr)
            | cons a as => rfl
          refine List.any_eq_true.mpr ⟨f, hf, ?_⟩
          rw [Bool.and_eq_true, Bool.and_eq_true, Bool.and_eq_true]
          refine ⟨⟨⟨?_, hfr⟩, ?_⟩, processPage_ok r p f.content hfr⟩
          · rw [hq, hid, hpn]
            exact beq_iff_eq.mpr rfl
          · rw [hnempty]
            rfl
        · simp [hcond] at hmatch

/-- C10 witness: the safety theorem instantiated at a one-file scan whose
references page is page 2, processed as the references page. -/
theorem C10_refpage_safety_witness :
    (process_month_directory "2301" initState refPageTwoFiles).map
        (fun st => st.reference_pages "p") = Except.ok (some "2") ∧
    refPageTwoFiles.any (fun f => parse_filename f.name == some ("p", "2")
      && find_references f.content && !(splitlines f.content).isEmpty
      && isOkB (processPage 2 2 f.content)) = true :=
  ⟨by rfl, C10_refpage_safety "2301" refPageTwoFiles "p" "2" 2 2 (by rfl)⟩
